import Mathlib

/-!
Verification of the agent orchestration engine (TypeScript repository
`agent-demo`) against its natural-language specification.

Strings are modelled as `List Char`; JavaScript string builtins used by the
source (`substring` with clamping, `||` on strings, `split`-based occurrence
counting, first-occurrence `replace`) are embedded explicitly.  External I/O
(the file system, child processes, completion-model endpoints) is modelled by
outcome parameters at the exact call boundary the source uses, so every
function of the repository that a claim mentions is a total Lean function of
its inputs plus those outcomes.
-/

namespace AgentDemo

/-- JavaScript `a || b` on strings: the empty string is falsy. -/
def jsOr (a b : List Char) : List Char :=
  if a.isEmpty then b else a

/-- JavaScript `a || b` where `a` may be `undefined` (`none`) as well as empty. -/
def jsOrOpt (a : Option (List Char)) (b : List Char) : List Char :=
  match a with
  | none => b
  | some s => jsOr s b

/-- JavaScript `String.prototype.substring(a, b)`: both indices are clamped to
`[0, length]` and swapped if out of order. -/
def jsSubstring (s : List Char) (a b : Int) : List Char :=
  (s.drop (min (min a.toNat s.length) (min b.toNat s.length))).take
    (max (min a.toNat s.length) (min b.toNat s.length)
      - min (min a.toNat s.length) (min b.toNat s.length))

/-- The elision marker inserted by `truncateOutput` in
`src/tool-implementations.ts`, stating how many characters were removed. -/
def truncMarker (removed : Nat) : List Char :=
  "\n\n... [TRUNCATED - ".toList ++ (Nat.repr removed).toList
    ++ " chars removed] ...\n\n".toList

/-- Embeds `truncateOutput(text, maxTokens)` from
`src/tool-implementations.ts` (lines 342-354): `maxChars = maxTokens * 4`;
text within budget is returned unchanged; otherwise the substrings
`text.substring(0, keepChars)` and `text.substring(text.length - keepChars)`
with `keepChars = Math.floor(maxChars / 2) - 50` are kept around the marker
(the `let` bindings of the source are inlined). -/
def truncateOutput (text : List Char) (maxTokens : Nat) : List Char :=
  if text.length ≤ maxTokens * 4 then text
  else
    jsSubstring text 0 ((maxTokens * 4 : Int) / 2 - 50)
      ++ truncMarker (text.length - maxTokens * 4)
      ++ jsSubstring text ((text.length : Int) - ((maxTokens * 4 : Int) / 2 - 50))
          (text.length : Int)

/-! ### `editFile` (`src/tool-implementations.ts`, lines 131-179)

The file-system interaction of `editFile` is a single read of the target
file's content (plus an existence check) and at most one write; it is
embedded as a function of the file's state returning the message and the
written content, `none` meaning no write was performed.  The `catch` clause
for file-system exceptions (`Error editing file: …`) is outside this pure
core. -/

/-- JavaScript `content.includes(pat)`: scan for an occurrence of `pat`. -/
def containsStr : List Char → List Char → Bool
  | [], pat => pat.isEmpty
  | c :: rest, pat => pat.isPrefixOf (c :: rest) || containsStr rest pat

/-- Fuel-based scan underlying `splitCount`; the fuel (instantiated with the
scanned list's length, which bounds the recursion depth) only makes the
recursion structural. -/
def splitCountAux (pat : List Char) : Nat → List Char → Nat
  | 0, _ => 0
  | _ + 1, [] => 0
  | fuel + 1, c :: rest =>
    if pat.isEmpty then 0
    else if pat.isPrefixOf (c :: rest) then
      1 + splitCountAux pat fuel (rest.drop (pat.length - 1))
    else splitCountAux pat fuel rest

/-- Embeds `content.split(oldStr).length - 1` from `editFile`:
`String.prototype.split` cuts at each leftmost non-overlapping occurrence of
the separator, so this counts those occurrences.  The source only evaluates it
with a non-empty separator (`oldStr === ""` returns earlier), so the
empty-separator case is left at 0. -/
def splitCount (pat s : List Char) : Nat :=
  splitCountAux pat s.length s

/-- JavaScript `content.replace(pat, repl)` with a plain-string pattern:
replace the first occurrence only. -/
def replaceFirst (pat repl : List Char) : List Char → List Char
  | [] => if pat.isEmpty then repl else []
  | c :: rest =>
    if pat.isPrefixOf (c :: rest) then repl ++ (c :: rest).drop pat.length
    else c :: replaceFirst pat repl rest

/-- Result of `editFile`: the returned message, and the content written to the
file (`none` when no `fs.writeFileSync` call happened). -/
structure EditResult where
  message : List Char
  written : Option (List Char)

/-- Embeds `editFile(filePath, oldStr, newStr)`; `present` and `content` model
`fs.existsSync` and `fs.readFileSync` for the target path. -/
def editFile (filePath : List Char) (present : Bool) (content : List Char)
    (oldStr newStr : List Char) : EditResult :=
  if ¬ present then
    if oldStr.isEmpty then
      ⟨"Created new file: ".toList ++ filePath, some newStr⟩
    else
      ⟨"Error: File not found: ".toList ++ filePath, none⟩
  else if oldStr.isEmpty then
    ⟨"Replaced entire file: ".toList ++ filePath, some newStr⟩
  else if ¬ containsStr content oldStr then
    ⟨"Error: Could not find the specified text in ".toList ++ filePath
      ++ ". Make sure the old_str matches exactly.".toList, none⟩
  else if 1 < splitCount oldStr content then
    ⟨"Error: Found ".toList ++ (Nat.repr (splitCount oldStr content)).toList
      ++ " matches for the specified text. Please use a more specific string to avoid ambiguity.".toList,
      none⟩
  else
    ⟨"Successfully edited ".toList ++ filePath, some (replaceFirst oldStr newStr content)⟩

/-! ### Tool schemas (`src/tools.ts`)

A tool definition in the source is a `name`, a `description` and a JSON
`input_schema`.  The description and schema are static JSON data the claims
never inspect; the capability claims quantify over the advertised `name`s, so
the embedding keeps the name. -/

structure ToolDefinition where
  name : List Char

def readFileTool : ToolDefinition := ⟨"read_file".toList⟩

def listFilesTool : ToolDefinition := ⟨"list_files".toList⟩

def codeSearchTool : ToolDefinition := ⟨"code_search".toList⟩

def editFileTool : ToolDefinition := ⟨"edit_file".toList⟩

def bashTool : ToolDefinition := ⟨"bash".toList⟩

def oracleTool : ToolDefinition := ⟨"oracle".toList⟩

def subagentTool : ToolDefinition := ⟨"subagent".toList⟩

def searchAgentTool : ToolDefinition := ⟨"search_agent".toList⟩

def parallelSubagentsTool : ToolDefinition := ⟨"parallel_subagents".toList⟩

def librarianTool : ToolDefinition := ⟨"librarian".toList⟩

def feedbackLoopTool : ToolDefinition := ⟨"feedback_loop".toList⟩

/-- `readOnlyTools` from `src/tools.ts` (lines 1658-1662 of the concatenated
source): the only schemas ever advertised by Oracle, Search and Librarian. -/
def readOnlyTools : List ToolDefinition := [readFileTool, listFilesTool, codeSearchTool]

def writeTools : List ToolDefinition := [editFileTool, bashTool]

def mainAgentTools : List ToolDefinition :=
  readOnlyTools ++ writeTools
    ++ [oracleTool, subagentTool, searchAgentTool, parallelSubagentsTool,
        librarianTool, feedbackLoopTool]

def subagentTools : List ToolDefinition := readOnlyTools ++ writeTools ++ [feedbackLoopTool]

def searchAgentTools : List ToolDefinition := readOnlyTools

def librarianTools : List ToolDefinition := readOnlyTools

/-- `toOpenAITools` keeps only data the claims inspect: the function name the
OpenAI wire format advertises. -/
structure OpenAITool where
  name : List Char

/-- Embeds `Oracle.toOpenAITools` / `Agent.toOpenAITools`: each neutral tool
definition is wrapped into an OpenAI function declaration with the same name. -/
def toOpenAITools (tools : List ToolDefinition) : List OpenAITool :=
  tools.map (fun tool => ⟨tool.name⟩)

/-! ### Structured tool input and the shared read-only executor

`executeReadOnlyTool` (duplicated in `Oracle`, `SearchAgent` and `Librarian`,
`src/agent.ts`) dispatches on the tool name and forwards the structured input
fields to the concrete executors.  Those executors perform file-system and
process I/O, so they enter the model as an environment of functions receiving
exactly the arguments the source passes (with the source's `|| "."` and
`|| false` defaulting applied at the call site, as in the code). -/

structure ToolInput where
  path : Option (List Char)
  pattern : Option (List Char)
  file_type : Option (List Char)
  case_sensitive : Option Bool

/-- A structurally empty input object. -/
def emptyInput : ToolInput := ⟨none, none, none, none⟩

structure ReadOnlyEnv where
  readFileF : Option (List Char) → List Char
  listFilesF : List Char → List Char
  codeSearchF : Option (List Char) → List Char → Option (List Char) → Bool → List Char

/-- Embeds `executeReadOnlyTool(name, input)` of `Oracle`/`SearchAgent`/
`Librarian`: dispatch on the name, defaulting `path` to `"."` and
`case_sensitive` to `false` as the source does, with `Unknown tool: <name>`
for any other name. -/
def executeReadOnlyTool (env : ReadOnlyEnv) (name : List Char) (input : ToolInput) :
    List Char :=
  if name = "read_file".toList then env.readFileF input.path
  else if name = "list_files".toList then env.listFilesF (jsOrOpt input.path ".".toList)
  else if name = "code_search".toList then
    env.codeSearchF input.pattern (jsOrOpt input.path ".".toList) input.file_type
      (input.case_sensitive.getD false)
  else "Unknown tool: ".toList ++ name

/-! ### The Anthropic-protocol conversation model and tool-call loop

`SearchAgent.searchWithAnthropic`, `Librarian.research` and `Subagent.spawn`
share one loop shape (`src/agent.ts`): call the model, append the assistant
turn, execute the tool-use blocks in order, append the results as one user
turn, and repeat while `iterations < maxIterations`.  The completion endpoint
is external: it is a parameter mapping the conversation so far to the content
blocks of the next assistant turn (a provider that throws instead aborts the
loop into the surrounding `catch`; the loop claims quantify over non-throwing
providers).  Likewise the tool executor used inside the loop is a parameter
(`Subagent` dispatches over six tools including `feedback_loop`; the loop's
behaviour depends only on the returned strings). -/

inductive ContentBlock
  | text (s : List Char)
  | toolUse (id : List Char) (name : List Char) (input : ToolInput)

/-- Whether a content block is a `tool_use` block. -/
def ContentBlock.isCall : ContentBlock → Bool
  | .text _ => false
  | .toolUse _ _ _ => true

structure ToolResultBlock where
  tool_use_id : List Char
  content : List Char

inductive Message
  | userText (s : List Char)
  | assistant (blocks : List ContentBlock)
  | userToolResults (rs : List ToolResultBlock)

/-- One pass over an assistant turn's content blocks, in order: each
`tool_use` block is executed and appended to the result list; each `text`
block overwrites `textResponse` (the loops assign `textResponse = block.text`,
so the last text block wins). -/
def processBlocksAux (exec : List Char → ToolInput → List Char)
    (acc : List ToolResultBlock × List Char) :
    List ContentBlock → List ToolResultBlock × List Char
  | [] => acc
  | .text s :: rest => processBlocksAux exec (acc.1, s) rest
  | .toolUse id name input :: rest =>
    processBlocksAux exec (acc.1 ++ [⟨id, exec name input⟩], acc.2) rest

def processBlocks (exec : List Char → ToolInput → List Char)
    (blocks : List ContentBlock) : List ToolResultBlock × List Char :=
  processBlocksAux exec ([], []) blocks

/-- Exit of a capped loop: `completed text n` when the `n`-th iteration's
assistant turn contained no tool-use block (the loop returns its text), and
`exhausted n` when the `while iterations < maxIterations` guard fails after
`n` executed iterations. -/
inductive LoopExit
  | completed (text : List Char) (iters : Nat)
  | exhausted (iters : Nat)

/-- The shared `while (iterations < maxIterations)` loop body of
`SearchAgent.searchWithAnthropic` (cap 10), `Librarian.research` (cap 15) and
`Subagent.spawn` (cap 20): one model call per iteration, tool results
executed in block order and appended as a single user turn. -/
def runCappedLoop (provider : List Message → List ContentBlock)
    (exec : List Char → ToolInput → List Char) (cap : Nat)
    (msgs : List Message) (iters : Nat) : LoopExit :=
  if h : iters < cap then
    if ((processBlocks exec (provider msgs)).1).isEmpty then
      .completed (processBlocks exec (provider msgs)).2 (iters + 1)
    else
      runCappedLoop provider exec cap
        ((msgs ++ [Message.assistant (provider msgs)])
          ++ [Message.userToolResults (processBlocks exec (provider msgs)).1])
        (iters + 1)
  else .exhausted iters
termination_by cap - iters
decreasing_by
  omega

/-- Embeds `SearchAgent.searchWithAnthropic` (`src/agent.ts`, lines 427-491):
cap 10; on convergence the last assistant text is returned, on exhaustion the
sentinel. -/
def searchWithAnthropic (provider : List Message → List ContentBlock)
    (exec : List Char → ToolInput → List Char) (query : List Char) : List Char :=
  match runCappedLoop provider exec 10 [Message.userText query] 0 with
  | .completed t _ => t
  | .exhausted _ => "Search reached maximum iterations".toList

/-- The user message `Librarian.research` seeds its conversation with. -/
def librarianUserMessage (library query : List Char) : List Char :=
  "Research question about ".toList ++ library ++ ": ".toList ++ query
    ++ "\n\nSearch the local codebase for existing usage of ".toList ++ library
    ++ ", then provide your analysis.".toList

/-- Embeds `Librarian.research` (`src/agent.ts`, lines 526-632): cap 15;
`textResponse || "Research completed"` on convergence, the sentinel on
exhaustion.  (Its `catch` returns `Librarian error: …` only when the model
call throws, which a total provider never does.) -/
def librarianResearch (provider : List Message → List ContentBlock)
    (exec : List Char → ToolInput → List Char) (query library : List Char) : List Char :=
  match runCappedLoop provider exec 15
      [Message.userText (librarianUserMessage library query)] 0 with
  | .completed t _ => jsOr t "Research completed".toList
  | .exhausted _ => "Librarian reached maximum iterations".toList

/-- Embeds `Subagent.spawn` (`src/agent.ts`, lines 680-801): cap 20; both loop
outcomes pass through `truncateOutput(·, maxOutputTokens)`.  `workingDirectory`
and `outputFormat` only parameterize the system prompt, which lives on the
provider side of the model-call boundary.  (Its `catch` returns
`Subagent error: …` only when the model call throws, which a total provider
never does.) -/
def subagentSpawn (provider : List Message → List ContentBlock)
    (exec : List Char → ToolInput → List Char) (task _workingDirectory : List Char)
    (maxOutputTokens : Nat) (_outputFormat : List Char) : List Char :=
  match runCappedLoop provider exec 20 [Message.userText task] 0 with
  | .completed t _ => truncateOutput (jsOr t "Task completed".toList) maxOutputTokens
  | .exhausted _ =>
    truncateOutput "Subagent reached maximum iterations.".toList maxOutputTokens

/-! ### `Oracle.consultAnthropic` (`src/agent.ts`, lines 188-238)

The Oracle loop is `while (true)` — unbounded — so the embedding takes a fuel
parameter; `fuelOut` is a modelling artifact, not a source exit path.  Unlike
the capped loops, the Oracle accumulates `textResponse += block.text`.  Each
model call advertises `tools: readOnlyTools`; the run records the tool list
advertised at every call so that the capability claim can quantify over the
whole run. -/

/-- Like `processBlocksAux` but concatenating the text blocks
(`textResponse += block.text`), as `consultAnthropic` does. -/
def processBlocksAppendAux (exec : List Char → ToolInput → List Char)
    (acc : List ToolResultBlock × List Char) :
    List ContentBlock → List ToolResultBlock × List Char
  | [] => acc
  | .text s :: rest => processBlocksAppendAux exec (acc.1, acc.2 ++ s) rest
  | .toolUse id name input :: rest =>
    processBlocksAppendAux exec (acc.1 ++ [⟨id, exec name input⟩], acc.2) rest

def processBlocksAppend (exec : List Char → ToolInput → List Char)
    (blocks : List ContentBlock) : List ToolResultBlock × List Char :=
  processBlocksAppendAux exec ([], []) blocks

/-- Outcome of an Oracle run together with the tool schemas advertised at each
model call (`advertised` has one entry per `messages.create` call). -/
inductive OracleRun
  | done (text : List Char) (advertised : List (List ToolDefinition))
  | fuelOut (advertised : List (List ToolDefinition))

/-- The advertised schema lists of an Oracle run. -/
def OracleRun.advertisedLists : OracleRun → List (List ToolDefinition)
  | .done _ adv => adv
  | .fuelOut adv => adv

/-- Embeds the `while (true)` loop of `Oracle.consultAnthropic`: the provider
receives the tool schemas the source passes — always the constant
`readOnlyTools` — and the conversation so far. -/
def consultAnthropicLoop
    (provider : List ToolDefinition → List Message → List ContentBlock)
    (exec : List Char → ToolInput → List Char) :
    Nat → List Message → OracleRun
  | 0, _ => .fuelOut []
  | fuel + 1, msgs =>
    if ((processBlocksAppend exec (provider readOnlyTools msgs)).1).isEmpty then
      .done (processBlocksAppend exec (provider readOnlyTools msgs)).2 [readOnlyTools]
    else
      match consultAnthropicLoop provider exec fuel
          ((msgs ++ [Message.assistant (provider readOnlyTools msgs)])
            ++ [Message.userToolResults
                  (processBlocksAppend exec (provider readOnlyTools msgs)).1]) with
      | .done t adv => .done t (readOnlyTools :: adv)
      | .fuelOut adv => .fuelOut (readOnlyTools :: adv)

/-! ### `Oracle.consultOpenAI` (`src/agent.ts`, lines 140-186)

The OpenAI protocol carries each tool call's structured input as a JSON
*string*; the source runs `JSON.parse(toolCall.function.arguments)` with no
`try`/`catch` inside the `while (true)` loop.  A call's arguments are modelled
by the outcome of that parse: `.ok input` when the wire string parses, and
`.error m` when `JSON.parse` throws a `SyntaxError` with message `m`.  The
loop is fueled (`fuelOut` is a modelling artifact); a thrown parse error is
propagated as the `thrown` outcome. -/

structure OpenAIToolCall where
  id : List Char
  name : List Char
  arguments : Except (List Char) ToolInput

structure OpenAIAssistantMsg where
  content : List Char
  tool_calls : List OpenAIToolCall

inductive OpenAIMsg
  | system (s : List Char)
  | user (s : List Char)
  | assistant (m : OpenAIAssistantMsg)
  | tool (tool_call_id : List Char) (content : List Char)

inductive ConsultOutcome
  | ok (text : List Char)
  | thrown (msg : List Char)
  | fuelOut

/-- The `for (const toolCall of message.tool_calls)` body: parse the
arguments (throwing on the first malformed call), execute, and collect the
`role: "tool"` follow-up messages in call order. -/
def processOpenAIToolCalls (env : ReadOnlyEnv) :
    List OpenAIToolCall → Except (List Char) (List OpenAIMsg)
  | [] => .ok []
  | tc :: rest =>
    match tc.arguments with
    | .error m => .error m
    | .ok input =>
      match processOpenAIToolCalls env rest with
      | .error m => .error m
      | .ok tail =>
        .ok (OpenAIMsg.tool tc.id (executeReadOnlyTool env tc.name input) :: tail)

/-- The first tool call whose arguments string fails to parse, if any. -/
def firstParseError : List OpenAIToolCall → Option (List Char)
  | [] => none
  | tc :: rest =>
    match tc.arguments with
    | .error m => some m
    | .ok _ => firstParseError rest

/-- Embeds the `while (true)` loop of `Oracle.consultOpenAI`: if the assistant
message has tool calls they are processed in order (a parse failure throws out
of the loop); otherwise `message.content || "No response from oracle"` is
returned. -/
def consultOpenAILoop (provider : List OpenAIMsg → OpenAIAssistantMsg)
    (env : ReadOnlyEnv) : Nat → List OpenAIMsg → ConsultOutcome
  | 0, _ => .fuelOut
  | fuel + 1, msgs =>
    if (provider msgs).tool_calls.isEmpty then
      .ok (jsOr (provider msgs).content "No response from oracle".toList)
    else
      match processOpenAIToolCalls env (provider msgs).tool_calls with
      | .error m => .thrown m
      | .ok toolMsgs =>
        consultOpenAILoop provider env fuel
          ((msgs ++ [OpenAIMsg.assistant (provider msgs)]) ++ toolMsgs)

/-- Embeds the OpenAI path of `Oracle.consult` (`src/agent.ts`, lines
111-125): the `try`/`catch` around `consultOpenAI` turns a thrown error into
`Oracle error: <message>`.  `fuelOut` cannot arise from the source (its loop
is unbounded) and is mapped to the empty string. -/
def consultOracleOpenAI (provider : List OpenAIMsg → OpenAIAssistantMsg)
    (env : ReadOnlyEnv) (fuel : Nat) (systemPrompt userMessage : List Char) : List Char :=
  match consultOpenAILoop provider env fuel
      [OpenAIMsg.system systemPrompt, OpenAIMsg.user userMessage] with
  | .ok t => t
  | .thrown m => "Oracle error: ".toList ++ m
  | .fuelOut => []

/-! ### Concrete tool executors (`src/tool-implementations.ts`)

`readFile`, `listFiles`, `codeSearch` and `bash` wrap external I/O
(`fs.readFileSync`, `fs.readdirSync` walking, `execSync`) in `try`/`catch`
and turn every outcome into a string.  Each is embedded as a function of its
arguments and the outcome of that external call. -/

/-- Embeds `readFile` (lines 19-28): the content on success, else
`Error reading file: <message>`. -/
def readFile (_filePath : List Char) (outcome : Except (List Char) (List Char)) :
    List Char :=
  match outcome with
  | .ok content => content
  | .error m => "Error reading file: ".toList ++ m

/-- Embeds `listFiles` (lines 33-66): the recursive two-level walk is the
external `fs` traversal, modelled by its outcome — the collected relative
paths, or the message of the first thrown `fs` error.  On success the entries
are joined with newlines, empty output falling back to `No files found`. -/
def listFiles (_dirPath : List Char)
    (outcome : Except (List Char) (List (List Char))) : List Char :=
  match outcome with
  | .ok results => jsOr (List.intercalate "\n".toList results) "No files found".toList
  | .error m => "Error listing files: ".toList ++ m

/-- Outcome of `codeSearch`'s layered `execSync` calls: ripgrep succeeded, or
ripgrep threw and the grep fallback succeeded, or both threw (the outer catch
sees the grep error with its `status` and message). -/
inductive SearchOutcome
  | rgOk (result : List Char)
  | grepOk (result : List Char)
  | grepErr (status : Option Nat) (message : List Char)

/-- Embeds `codeSearch` (lines 71-122): non-empty command output is returned
as-is, empty output becomes `No matches found`, grep exit status 1 means no
matches, and any other failure becomes `Search error: <message>`. -/
def codeSearch (_pattern _searchPath : List Char) (_fileType : Option (List Char))
    (_caseSensitive : Bool) (outcome : SearchOutcome) : List Char :=
  match outcome with
  | .rgOk r => jsOr r "No matches found".toList
  | .grepOk r => jsOr r "No matches found".toList
  | .grepErr status m =>
    if status = some 1 then "No matches found".toList
    else "Search error: ".toList ++ m

/-- The error object `execSync` throws on non-zero exit: captured stdout and
stderr (empty for `undefined`) and the error message. -/
structure BashErrInfo where
  stdout : List Char
  stderr : List Char
  message : List Char

/-- Embeds `bash` (lines 184-202): on success the output (or
`Command completed (no output)`); on a thrown error the combined
`stdout + "\nSTDERR: " + stderr`, falling back to `Error: <message>` when that
combination is empty. -/
def bash (_command : List Char) (_timeout : Nat)
    (outcome : Except BashErrInfo (List Char)) : List Char :=
  match outcome with
  | .ok result => jsOr result "Command completed (no output)".toList
  | .error e =>
    jsOr (e.stdout ++ (if e.stderr.isEmpty then [] else "\nSTDERR: ".toList ++ e.stderr))
      ("Error: ".toList ++ e.message)

/-! ### `runFeedbackLoops` (`src/tool-implementations.ts`, lines 215-337)

Each of the three validation commands is an `execSync` call in a
`try`/`catch`; its outcome enters the model as `ok result` (exit success with
captured output) or `err stdout message` (thrown error with captured
`error.stdout`, empty when absent, and `error.message`).  The test-runner
probing (`vitest`/`jest`/`npm test`) only selects which command string is
executed and does not affect the result classification. -/

inductive ExecOutcome
  | ok (result : List Char)
  | err (stdout : List Char) (message : List Char)

structure FeedbackResult where
  passed : Bool
  output : List Char
  skipped : Bool
  error : Option (List Char)

structure FeedbackLoopResults where
  typescript : Option FeedbackResult
  tests : Option FeedbackResult
  lint : Option FeedbackResult
  allPassed : Bool
  summary : List Char

/-- `statusEmoji` from the summary construction: `r?.passed` is falsy for a
missing result. -/
def statusEmoji (r : Option FeedbackResult) : List Char :=
  if (r.map (fun x => x.passed)).getD false then "✓".toList else "✗".toList

/-- The `results.summary` template (the source's surrounding newlines removed
by its `.trim()` are not emitted). -/
def feedbackSummary (ts te li : Option FeedbackResult) (allPassed : Bool) : List Char :=
  "Feedback Loop Results:\n".toList
    ++ statusEmoji ts ++ " TypeScript: ".toList
    ++ (if (ts.map (fun x => x.passed)).getD false then "PASS".toList else "FAIL".toList)
    ++ "\n".toList
    ++ statusEmoji te ++ " Tests: ".toList
    ++ (if (te.map (fun x => x.passed)).getD false then
          (if (te.map (fun x => x.skipped)).getD false then "SKIP".toList
           else "PASS".toList)
        else "FAIL".toList)
    ++ "\n".toList
    ++ statusEmoji li ++ " Lint: ".toList
    ++ (if (li.map (fun x => x.passed)).getD false then
          (if (li.map (fun x => x.skipped)).getD false then "SKIP".toList
           else "PASS".toList)
        else "FAIL".toList)
    ++ "\n\n".toList
    ++ (if allPassed then "✓ All checks passed!".toList
        else "✗ Some checks failed - fix and retry".toList)

/-- The TypeScript check result: no skip detection exists for it. -/
def typescriptResult (tscOut : ExecOutcome) : Option FeedbackResult :=
  match tscOut with
  | .ok r => some ⟨true, jsOr r "No type errors".toList, false, none⟩
  | .err so msg =>
    some ⟨false, jsOr so msg, false, some "TypeScript type errors found".toList⟩

/-- The tests result: a failure whose output mentions `no test` or
`No tests found` is classified as skipped (and `passed: true`). -/
def testsResult (testOut : ExecOutcome) : Option FeedbackResult :=
  match testOut with
  | .ok r => some ⟨true, r, false, none⟩
  | .err so msg =>
    if containsStr (jsOr so msg) "no test".toList
        || containsStr (jsOr so msg) "No tests found".toList then
      some ⟨true, "No tests configured".toList, true, none⟩
    else some ⟨false, jsOr so msg, false, some "Tests failed".toList⟩

/-- The lint result: a failure whose output mentions
`No ESLint configuration` or `eslint: not found` is classified as skipped
(and `passed: true`). -/
def lintResult (lintOut : ExecOutcome) : Option FeedbackResult :=
  match lintOut with
  | .ok r => some ⟨true, jsOr r "No lint errors".toList, false, none⟩
  | .err so msg =>
    if containsStr (jsOr so msg) "No ESLint configuration".toList
        || containsStr (jsOr so msg) "eslint: not found".toList then
      some ⟨true, "ESLint not configured".toList, true, none⟩
    else some ⟨false, jsOr so msg, false, some "Lint errors found".toList⟩

/-- Embeds `runFeedbackLoops(workingDir)`:
`allPassed = (typescript?.passed ?? true) && (tests?.passed ?? true) &&
(lint?.passed ?? true)`. -/
def runFeedbackLoops (_workingDir : List Char)
    (tscOut testOut lintOut : ExecOutcome) : FeedbackLoopResults :=
  ⟨typescriptResult tscOut, testsResult testOut, lintResult lintOut,
    ((typescriptResult tscOut).map (fun x => x.passed)).getD true
      && ((testsResult testOut).map (fun x => x.passed)).getD true
      && ((lintResult lintOut).map (fun x => x.passed)).getD true,
    feedbackSummary (typescriptResult tscOut) (testsResult testOut)
      (lintResult lintOut)
      (((typescriptResult tscOut).map (fun x => x.passed)).getD true
        && ((testsResult testOut).map (fun x => x.passed)).getD true
        && ((lintResult lintOut).map (fun x => x.passed)).getD true)⟩

/-! ### `Agent.runParallelSubagents` (`src/agent.ts`, lines 979-1041)

`Promise.all(tasks.map(...))` resolves to the per-task outcomes **in the array
order of `tasks`**, regardless of completion order; each mapped closure has
its own `try`/`catch`.  `subagent.spawn` is the parameter `spawnF`, a function
of exactly the arguments the source passes
(`task.task, task.working_directory || ".", maxOutputTokens, "summary"`),
returning `.error msg` when the spawn call rejects. -/

structure SubagentTask where
  name : List Char
  task : List Char
  working_directory : Option (List Char)

structure ParallelTaskResult where
  name : List Char
  success : Bool
  result : List Char

/-- One task's mapped closure: `{name, success: true, result}` on success and
`{name, success: false, result: "Error: " + message}` when `spawn` throws. -/
def parallelTaskOutcome
    (spawnF : List Char → List Char → Nat → List Char → Except (List Char) (List Char))
    (maxOutputTokens : Nat) (t : SubagentTask) : ParallelTaskResult :=
  match spawnF t.task (jsOrOpt t.working_directory ".".toList) maxOutputTokens
      "summary".toList with
  | .ok r => ⟨t.name, true, r⟩
  | .error e => ⟨t.name, false, "Error: ".toList ++ e⟩

/-- The aggregate string `runParallelSubagents` returns: one
`## <name>\n<result>` section per task, joined by `\n\n---\n\n`, in the
original task order. -/
def runParallelSubagents
    (spawnF : List Char → List Char → Nat → List Char → Except (List Char) (List Char))
    (tasks : List SubagentTask) (maxOutputTokens : Nat) : List Char :=
  List.intercalate "\n\n---\n\n".toList
    ((tasks.map (parallelTaskOutcome spawnF maxOutputTokens)).map
      (fun r => "## ".toList ++ r.name ++ "\n".toList ++ r.result))

/-! ### Concrete stubs used by the witness theorems -/

/-- A provider stub that emits one tool call in every turn. -/
def stubAlwaysCall : List Message → List ContentBlock :=
  fun _ => [ContentBlock.toolUse "toolu_1".toList "read_file".toList emptyInput]

/-- A tool executor stub returning a fixed string. -/
def stubExec : List Char → ToolInput → List Char :=
  fun _ _ => "ok".toList

/-- A spawn stub that rejects exactly on the task text `task b`. -/
def stubSpawn : List Char → List Char → Nat → List Char → Except (List Char) (List Char) :=
  fun task _ _ _ =>
    if task = "task b".toList then Except.error "boom".toList
    else Except.ok "done".toList

/-- Three concrete fan-out tasks; the second one's spawn rejects under
`stubSpawn`. -/
def stubTasks : List SubagentTask :=
  [⟨"alpha".toList, "task a".toList, none⟩,
   ⟨"beta".toList, "task b".toList, none⟩,
   ⟨"gamma".toList, "task c".toList, none⟩]

/-- A read-only environment stub with empty outputs. -/
def stubEnv : ReadOnlyEnv :=
  ⟨fun _ => [], fun _ => [], fun _ _ _ _ => []⟩

/-- An OpenAI provider stub whose every turn carries one tool call with an
arguments string that fails to parse. -/
def stubMalformedProvider : List OpenAIMsg → OpenAIAssistantMsg :=
  fun _ =>
    ⟨[], [⟨"call_1".toList, "read_file".toList,
           Except.error "Unexpected token x in JSON at position 0".toList⟩]⟩

/-- An Anthropic oracle provider stub that answers with no tool calls. -/
def stubOracleDone : List ToolDefinition → List Message → List ContentBlock :=
  fun _ _ => [ContentBlock.text "answer".toList]

/-- The write tools and meta-tool names that must never be advertised to the
Oracle (`edit_file`, `bash`, and every meta-tool of `mainAgentTools`). -/
def forbiddenForOracle : List (List Char) :=
  ["edit_file".toList, "bash".toList, "oracle".toList, "subagent".toList,
   "search_agent".toList, "parallel_subagents".toList, "librarian".toList,
   "feedback_loop".toList]

lemma truncateOutput_of_le {text : List Char} {maxTokens : Nat}
    (h : text.length ≤ maxTokens * 4) : truncateOutput text maxTokens = text := by
  unfold truncateOutput
  simp [h]

lemma jsSubstring_zero (s : List Char) (b : Int) :
    jsSubstring s 0 b = s.take (min b.toNat s.length) := by
  unfold jsSubstring
  simp

lemma jsSubstring_tail (s : List Char) (a : Int) :
    jsSubstring s a (s.length : Int) = s.drop (min a.toNat s.length) := by
  unfold jsSubstring
  have hb : (s.length : Int).toNat = s.length := by omega
  rw [hb]
  have h1 : min s.length s.length = s.length := by omega
  rw [h1]
  have h2 : min (min a.toNat s.length) s.length = min a.toNat s.length := by omega
  have h3 : max (min a.toNat s.length) s.length = s.length := by omega
  rw [h2, h3]
  exact List.take_of_length_le (by simp)

/-- In the over-budget case `truncateOutput` keeps the clamped head and tail
around the marker; `2 * maxTokens - 50` is natural-number subtraction, which
matches the JavaScript clamping of a negative `keepChars`. -/
lemma truncateOutput_of_gt {text : List Char} {maxTokens : Nat}
    (h : maxTokens * 4 < text.length) :
    truncateOutput text maxTokens =
      text.take (2 * maxTokens - 50) ++ truncMarker (text.length - maxTokens * 4)
        ++ text.drop (text.length - (2 * maxTokens - 50)) := by
  unfold truncateOutput
  rw [if_neg (by omega)]
  rw [jsSubstring_zero, jsSubstring_tail]
  have h1 : min ((maxTokens * 4 : Int) / 2 - 50).toNat text.length
      = 2 * maxTokens - 50 := by omega
  have h2 : min ((text.length : Int) - ((maxTokens * 4 : Int) / 2 - 50)).toNat text.length
      = text.length - (2 * maxTokens - 50) := by omega
  rw [h1, h2]

/-- The output of `truncateOutput` never exceeds `4 * maxTokens` characters
plus the length of the elision marker. -/
lemma truncateOutput_length_le (text : List Char) (maxTokens : Nat) :
    (truncateOutput text maxTokens).length
      ≤ maxTokens * 4 + (truncMarker (text.length - maxTokens * 4)).length := by
  by_cases h : text.length ≤ maxTokens * 4
  · rw [truncateOutput_of_le h]
    omega
  · rw [truncateOutput_of_gt (by omega)]
    simp only [List.length_append, List.length_take, List.length_drop]
    omega

lemma containsStr_iff_splitCountAux_pos (pat : List Char)
    (hp : ¬ pat.isEmpty = true) :
    ∀ (fuel : Nat) (s : List Char), s.length ≤ fuel →
      (containsStr s pat = true ↔ 0 < splitCountAux pat fuel s) := by
  intro fuel
  induction fuel with
  | zero =>
    intro s hs
    have hnil : s = [] := List.length_eq_zero.mp (Nat.le_zero.mp hs)
    subst hnil
    simp [containsStr, splitCountAux, hp]
  | succ fuel ih =>
    intro s hs
    cases s with
    | nil => simp [containsStr, splitCountAux, hp]
    | cons c rest =>
      rw [containsStr]
      simp only [splitCountAux]
      rw [if_neg hp]
      by_cases hpre : pat.isPrefixOf (c :: rest)
      · simp [hpre]
      · rw [if_neg hpre]
        simp only [hpre, Bool.false_or]
        exact ih rest (by simp at hs; omega)

lemma containsStr_iff_splitCount_pos (pat : List Char) (hp : ¬ pat.isEmpty = true)
    (s : List Char) : containsStr s pat = true ↔ 0 < splitCount pat s :=
  containsStr_iff_splitCountAux_pos pat hp s.length s le_rfl

lemma processBlocksAux_fst_length (exec : List Char → ToolInput → List Char) :
    ∀ (blocks : List ContentBlock) (acc : List ToolResultBlock × List Char),
      ((processBlocksAux exec acc blocks).1).length
        = acc.1.length + blocks.countP ContentBlock.isCall := by
  intro blocks
  induction blocks with
  | nil => intro acc; simp [processBlocksAux]
  | cons b rest ih =>
    intro acc
    cases b with
    | text s =>
      rw [processBlocksAux, ih]
      simp [List.countP_cons, ContentBlock.isCall]
    | toolUse id name input =>
      rw [processBlocksAux, ih]
      simp [List.countP_cons, ContentBlock.isCall]
      omega

lemma processBlocks_fst_isEmpty_eq_false (exec : List Char → ToolInput → List Char)
    (blocks : List ContentBlock) (h : blocks.any ContentBlock.isCall = true) :
    ((processBlocks exec blocks).1).isEmpty = false := by
  have hpos : 0 < blocks.countP ContentBlock.isCall := by
    rw [List.countP_pos_iff]
    rcases List.any_eq_true.mp h with ⟨b, hb, hcall⟩
    exact ⟨b, hb, hcall⟩
  have hlen := processBlocksAux_fst_length exec blocks ([], [])
  have hne : ((processBlocks exec blocks).1).length ≠ 0 := by
    simp only [processBlocks]
    omega
  cases hemp : ((processBlocks exec blocks).1).isEmpty
  · rfl
  · exact absurd (by simpa [List.isEmpty_iff_length_eq_zero] using hemp) hne

/-- With a provider whose every turn contains a tool-use block, the capped
loop consumes exactly its cap of iterations and exits exhausted. -/
lemma runCappedLoop_stub_exhausts (provider : List Message → List ContentBlock)
    (exec : List Char → ToolInput → List Char) (cap : Nat)
    (hstub : ∀ msgs, (provider msgs).any ContentBlock.isCall = true) :
    ∀ (n : Nat) (msgs : List Message) (iters : Nat), cap - iters ≤ n → iters ≤ cap →
      runCappedLoop provider exec cap msgs iters = .exhausted cap := by
  intro n
  induction n with
  | zero =>
    intro msgs iters hle hcap
    unfold runCappedLoop
    have : ¬ iters < cap := by omega
    rw [dif_neg this]
    have : iters = cap := by omega
    rw [this]
  | succ n ih =>
    intro msgs iters hle hcap
    unfold runCappedLoop
    by_cases h : iters < cap
    · rw [dif_pos h]
      rw [processBlocks_fst_isEmpty_eq_false exec (provider msgs) (hstub msgs)]
      simp only [Bool.false_eq_true, if_false]
      exact ih _ (iters + 1) (by omega) (by omega)
    · rw [dif_neg h]
      have : iters = cap := by omega
      rw [this]

/-- Totality of the capped loop: the only exits are a zero-tool-call turn
(`completed`, within the cap) or the iteration guard (`exhausted` exactly at
the cap). -/
lemma runCappedLoop_cases (provider : List Message → List ContentBlock)
    (exec : List Char → ToolInput → List Char) (cap : Nat) :
    ∀ (n : Nat) (msgs : List Message) (iters : Nat), cap - iters ≤ n → iters ≤ cap →
      runCappedLoop provider exec cap msgs iters = .exhausted cap ∨
        ∃ t m, runCappedLoop provider exec cap msgs iters = .completed t m ∧
          iters < m ∧ m ≤ cap := by
  intro n
  induction n with
  | zero =>
    intro msgs iters hle hcap
    unfold runCappedLoop
    have h0 : ¬ iters < cap := by omega
    rw [dif_neg h0]
    have : iters = cap := by omega
    rw [this]
    exact Or.inl rfl
  | succ n ih =>
    intro msgs iters hle hcap
    unfold runCappedLoop
    by_cases h : iters < cap
    · rw [dif_pos h]
      by_cases hemp : ((processBlocks exec (provider msgs)).1).isEmpty
      · rw [if_pos hemp]
        exact Or.inr ⟨_, iters + 1, rfl, by omega, by omega⟩
      · rw [if_neg hemp]
        rcases ih _ (iters + 1) (by omega) (by omega) with hcase | ⟨t, m, heq, hm1, hm2⟩
        · exact Or.inl hcase
        · exact Or.inr ⟨t, m, heq, by omega, hm2⟩
    · rw [dif_neg h]
      have : iters = cap := by omega
      rw [this]
      exact Or.inl rfl

/-- Every model call in an Oracle run advertises exactly `readOnlyTools`. -/
lemma consultAnthropicLoop_advertised
    (provider : List ToolDefinition → List Message → List ContentBlock)
    (exec : List Char → ToolInput → List Char) :
    ∀ (fuel : Nat) (msgs : List Message) (ts : List ToolDefinition),
      ts ∈ (consultAnthropicLoop provider exec fuel msgs).advertisedLists →
        ts = readOnlyTools := by
  intro fuel
  induction fuel with
  | zero =>
    intro msgs ts hmem
    simp [consultAnthropicLoop, OracleRun.advertisedLists] at hmem
  | succ fuel ih =>
    intro msgs ts hmem
    rw [consultAnthropicLoop] at hmem
    by_cases hemp : ((processBlocksAppend exec (provider readOnlyTools msgs)).1).isEmpty
    · rw [if_pos hemp] at hmem
      simp [OracleRun.advertisedLists] at hmem
      exact hmem
    · rw [if_neg hemp] at hmem
      cases hrec : consultAnthropicLoop provider exec fuel
          ((msgs ++ [Message.assistant (provider readOnlyTools msgs)])
            ++ [Message.userToolResults
                  (processBlocksAppend exec (provider readOnlyTools msgs)).1]) with
      | done t adv =>
        rw [hrec] at hmem
        simp [OracleRun.advertisedLists] at hmem
        rcases hmem with hmem | hmem
        · exact hmem
        · exact ih _ ts (by rw [hrec]; exact hmem)
      | fuelOut adv =>
        rw [hrec] at hmem
        simp [OracleRun.advertisedLists] at hmem
        rcases hmem with hmem | hmem
        · exact hmem
        · exact ih _ ts (by rw [hrec]; exact hmem)

lemma processOpenAIToolCalls_error (env : ReadOnlyEnv) :
    ∀ (calls : List OpenAIToolCall) (m : List Char),
      firstParseError calls = some m → processOpenAIToolCalls env calls = .error m := by
  intro calls
  induction calls with
  | nil => intro m hm; simp [firstParseError] at hm
  | cons tc rest ih =>
    intro m hm
    rw [firstParseError] at hm
    rw [processOpenAIToolCalls]
    cases harg : tc.arguments with
    | error e =>
      rw [harg] at hm
      simp at hm
      rw [hm]
    | ok input =>
      rw [harg] at hm
      simp at hm
      rw [ih m hm]

/-- Claim C4: for every text and token budget `T` with
`length(text) ≤ 4*T`, `truncateOutput(text, T)` returns the text unchanged,
and is therefore idempotent on such texts. -/
theorem c4_truncation_identity (text : List Char) (T : Nat)
    (h : text.length ≤ 4 * T) :
    truncateOutput text T = text ∧
      truncateOutput (truncateOutput text T) T = truncateOutput text T := by
  have h1 : truncateOutput text T = text := truncateOutput_of_le (by omega)
  exact ⟨h1, by rw [h1, h1]⟩

theorem c4_truncation_identity_witness :
    "hello".toList.length ≤ 4 * 2 ∧
      (truncateOutput "hello".toList 2 = "hello".toList ∧
        truncateOutput (truncateOutput "hello".toList 2) 2
          = truncateOutput "hello".toList 2) :=
  ⟨by decide, c4_truncation_identity "hello".toList 2 (by decide)⟩

/-- Claim C5: for every text longer than `maxChars = 4*maxTokens`,
`truncateOutput` returns `head(text, keep) ++ marker ++ tail(text, keep)` with
`keep = floor(maxChars/2) - 50` (clamped at 0) and the marker reporting
`length(text) - maxChars` elided characters; consequently the output length is
at most `4*T` plus the marker length. -/
theorem c5_truncation_bound (text : List Char) (T : Nat)
    (h : 4 * T < text.length) :
    truncateOutput text T
        = text.take (2 * T - 50) ++ truncMarker (text.length - 4 * T)
          ++ text.drop (text.length - (2 * T - 50)) ∧
      (truncateOutput text T).length
        ≤ 4 * T + (truncMarker (text.length - 4 * T)).length := by
  rw [Nat.mul_comm 4 T]
  exact ⟨truncateOutput_of_gt (by omega), truncateOutput_length_le text T⟩

theorem c5_truncation_bound_witness :
    4 * 30 < (List.replicate 121 'a').length ∧
      (truncateOutput (List.replicate 121 'a') 30
          = (List.replicate 121 'a').take (2 * 30 - 50)
            ++ truncMarker ((List.replicate 121 'a').length - 4 * 30)
            ++ (List.replicate 121 'a').drop
                ((List.replicate 121 'a').length - (2 * 30 - 50)) ∧
        (truncateOutput (List.replicate 121 'a') 30).length
          ≤ 4 * 30 + (truncMarker ((List.replicate 121 'a').length - 4 * 30)).length) :=
  ⟨by decide, c5_truncation_bound (List.replicate 121 'a') 30 (by decide)⟩

/-- Claim C3: every string `Subagent.spawn` returns — on either outcome of its
loop (convergence or cap exhaustion) — is the image under
`truncateOutput(·, maxOutputTokens)` of some text, so its length is bounded by
`4 * maxOutputTokens` plus the marker overhead for that text. -/
theorem c3_spawn_budgeted (provider : List Message → List ContentBlock)
    (exec : List Char → ToolInput → List Char)
    (task workingDirectory : List Char) (maxOutputTokens : Nat)
    (outputFormat : List Char) :
    ∃ s : List Char,
      subagentSpawn provider exec task workingDirectory maxOutputTokens outputFormat
          = truncateOutput s maxOutputTokens ∧
        (subagentSpawn provider exec task workingDirectory maxOutputTokens
            outputFormat).length
          ≤ 4 * maxOutputTokens
            + (truncMarker (s.length - 4 * maxOutputTokens)).length := by
  rw [Nat.mul_comm 4 maxOutputTokens]
  unfold subagentSpawn
  cases runCappedLoop provider exec 20 [Message.userText task] 0 with
  | completed t m =>
    exact ⟨jsOr t "Task completed".toList, rfl, truncateOutput_length_le _ _⟩
  | exhausted m =>
    exact ⟨"Subagent reached maximum iterations.".toList, rfl,
      truncateOutput_length_le _ _⟩

/-- Claim C1: with a provider stub that always emits a tool call, the Search,
Librarian and Subagent loops terminate after exactly 10, 15 and 20 iterations
respectively and return their exhausted sentinels (`Subagent.spawn` passes its
sentinel through the output budgeter, the identity whenever
`4 * maxOutputTokens` covers the 36-character sentinel — in particular at the
default 2000); and for any provider at all the only exits of the capped loop
are a zero-tool-call turn within the cap or exhaustion exactly at the cap. -/
theorem c1_iteration_caps (provider : List Message → List ContentBlock)
    (exec : List Char → ToolInput → List Char)
    (hstub : ∀ msgs, (provider msgs).any ContentBlock.isCall = true) :
    (∀ query : List Char,
      searchWithAnthropic provider exec query
          = "Search reached maximum iterations".toList ∧
        runCappedLoop provider exec 10 [Message.userText query] 0
          = LoopExit.exhausted 10) ∧
    (∀ query library : List Char,
      librarianResearch provider exec query library
          = "Librarian reached maximum iterations".toList ∧
        runCappedLoop provider exec 15
            [Message.userText (librarianUserMessage library query)] 0
          = LoopExit.exhausted 15) ∧
    (∀ (task workingDirectory outputFormat : List Char) (maxOutputTokens : Nat),
      36 ≤ 4 * maxOutputTokens →
        subagentSpawn provider exec task workingDirectory maxOutputTokens
            outputFormat
          = "Subagent reached maximum iterations.".toList ∧
        runCappedLoop provider exec 20 [Message.userText task] 0
          = LoopExit.exhausted 20) ∧
    (∀ (p : List Message → List ContentBlock)
        (e : List Char → ToolInput → List Char) (cap : Nat) (msgs : List Message),
      runCappedLoop p e cap msgs 0 = LoopExit.exhausted cap ∨
        ∃ t n, runCappedLoop p e cap msgs 0 = LoopExit.completed t n ∧
          0 < n ∧ n ≤ cap) := by
  have hex : ∀ (cap : Nat) (msgs : List Message),
      runCappedLoop provider exec cap msgs 0 = LoopExit.exhausted cap :=
    fun cap msgs =>
      runCappedLoop_stub_exhausts provider exec cap hstub cap msgs 0 (by omega)
        (by omega)
  refine ⟨?_, ?_, ?_, ?_⟩
  · intro query
    constructor
    · unfold searchWithAnthropic
      rw [hex 10 _]
    · exact hex 10 _
  · intro query library
    constructor
    · unfold librarianResearch
      rw [hex 15 _]
    · exact hex 15 _
  · intro task workingDirectory outputFormat maxOutputTokens hbudget
    constructor
    · unfold subagentSpawn
      rw [hex 20 _]
      exact truncateOutput_of_le (by
        have : ("Subagent reached maximum iterations.".toList).length = 36 := by
          decide
        omega)
    · exact hex 20 _
  · intro p e cap msgs
    rcases runCappedLoop_cases p e cap cap msgs 0 (by omega) (by omega) with
      hcase | ⟨t, n, heq, hn0, hncap⟩
    · exact Or.inl hcase
    · exact Or.inr ⟨t, n, heq, hn0, hncap⟩

theorem c1_iteration_caps_witness :
    (∀ msgs, (stubAlwaysCall msgs).any ContentBlock.isCall = true) ∧
      searchWithAnthropic stubAlwaysCall stubExec "q".toList
        = "Search reached maximum iterations".toList ∧
      runCappedLoop stubAlwaysCall stubExec 10 [Message.userText "q".toList] 0
        = LoopExit.exhausted 10 ∧
      librarianResearch stubAlwaysCall stubExec "q".toList "lib".toList
        = "Librarian reached maximum iterations".toList ∧
      subagentSpawn stubAlwaysCall stubExec "t".toList ".".toList 2000 "full".toList
        = "Subagent reached maximum iterations.".toList ∧
      runCappedLoop stubAlwaysCall stubExec 20 [Message.userText "t".toList] 0
        = LoopExit.exhausted 20 := by
  have h := c1_iteration_caps stubAlwaysCall stubExec (fun _ => rfl)
  exact ⟨fun _ => rfl, (h.1 _).1, (h.1 _).2, (h.2.1 _ _).1,
    (h.2.2.1 "t".toList ".".toList "full".toList 2000 (by omega)).1,
    (h.2.2.1 "t".toList ".".toList "full".toList 2000 (by omega)).2⟩

/-- Claim C2: the fan-out produces exactly one outcome entry per task, in the
original input order and labeled by the task's name; a task whose spawn
throws is marked failed with the error text, and every task's entry is a
function of that task alone (so siblings are unaffected); the aggregate joins
the labeled sections in that order. -/
theorem c2_parallel_fanout
    (spawnF : List Char → List Char → Nat → List Char → Except (List Char) (List Char))
    (tasks : List SubagentTask) (maxOutputTokens : Nat) :
    (tasks.map (parallelTaskOutcome spawnF maxOutputTokens)).length = tasks.length ∧
    (∀ (i : Nat) (h : i < tasks.length),
      (tasks.map (parallelTaskOutcome spawnF maxOutputTokens)).get
          ⟨i, by simpa using h⟩
        = parallelTaskOutcome spawnF maxOutputTokens (tasks.get ⟨i, h⟩) ∧
      ((tasks.map (parallelTaskOutcome spawnF maxOutputTokens)).get
          ⟨i, by simpa using h⟩).name
        = (tasks.get ⟨i, h⟩).name) ∧
    (∀ (t : SubagentTask) (r : List Char),
      spawnF t.task (jsOrOpt t.working_directory ".".toList) maxOutputTokens
          "summary".toList = Except.ok r →
        parallelTaskOutcome spawnF maxOutputTokens t = ⟨t.name, true, r⟩) ∧
    (∀ (t : SubagentTask) (e : List Char),
      spawnF t.task (jsOrOpt t.working_directory ".".toList) maxOutputTokens
          "summary".toList = Except.error e →
        parallelTaskOutcome spawnF maxOutputTokens t
          = ⟨t.name, false, "Error: ".toList ++ e⟩) ∧
    runParallelSubagents spawnF tasks maxOutputTokens
      = List.intercalate "\n\n---\n\n".toList
          ((tasks.map (parallelTaskOutcome spawnF maxOutputTokens)).map
            (fun r => "## ".toList ++ r.name ++ "\n".toList ++ r.result)) := by
  refine ⟨List.length_map _ _, ?_, ?_, ?_, rfl⟩
  · intro i h
    have hget : (tasks.map (parallelTaskOutcome spawnF maxOutputTokens)).get
        ⟨i, by simpa using h⟩
        = parallelTaskOutcome spawnF maxOutputTokens (tasks.get ⟨i, h⟩) := by
      simp [List.get_eq_getElem]
    refine ⟨hget, ?_⟩
    rw [hget]
    unfold parallelTaskOutcome
    cases spawnF (tasks.get ⟨i, h⟩).task
        (jsOrOpt (tasks.get ⟨i, h⟩).working_directory ".".toList) maxOutputTokens
        "summary".toList <;> rfl
  · intro t r hok
    unfold parallelTaskOutcome
    rw [hok]
  · intro t e herr
    unfold parallelTaskOutcome
    rw [herr]

theorem c2_parallel_fanout_witness :
    (stubTasks.map (parallelTaskOutcome stubSpawn 500)).length = stubTasks.length ∧
      parallelTaskOutcome stubSpawn 500 ⟨"alpha".toList, "task a".toList, none⟩
        = ⟨"alpha".toList, true, "done".toList⟩ ∧
      parallelTaskOutcome stubSpawn 500 ⟨"beta".toList, "task b".toList, none⟩
        = ⟨"beta".toList, false, "Error: ".toList ++ "boom".toList⟩ ∧
      parallelTaskOutcome stubSpawn 500 ⟨"gamma".toList, "task c".toList, none⟩
        = ⟨"gamma".toList, true, "done".toList⟩ := by
  have h := c2_parallel_fanout stubSpawn stubTasks 500
  exact ⟨h.1,
    h.2.2.1 ⟨"alpha".toList, "task a".toList, none⟩ "done".toList rfl,
    h.2.2.2.1 ⟨"beta".toList, "task b".toList, none⟩ "boom".toList rfl,
    h.2.2.1 ⟨"gamma".toList, "task c".toList, none⟩ "done".toList rfl⟩

/-- Claim C10: on an existing file with a non-empty `old_str`, `editFile`
returns an error string (prefixed `Error: `) and performs no write whenever
the occurrence count of `old_str` (the source's `split`-based count) is 0 or
more than 1; the write — the first-occurrence replacement — happens exactly
when it occurs once, with the success message. -/
theorem c10_edit_unique_match (filePath content oldStr newStr : List Char)
    (hold : oldStr ≠ []) :
    (splitCount oldStr content ≠ 1 →
      (editFile filePath true content oldStr newStr).written = none ∧
      ∃ rest, (editFile filePath true content oldStr newStr).message
        = "Error: ".toList ++ rest) ∧
    (splitCount oldStr content = 1 →
      (editFile filePath true content oldStr newStr).written
          = some (replaceFirst oldStr newStr content) ∧
      (editFile filePath true content oldStr newStr).message
          = "Successfully edited ".toList ++ filePath) := by
  have hne : ¬ oldStr.isEmpty = true := by
    cases oldStr with
    | nil => exact absurd rfl hold
    | cons a b => simp
  constructor
  · intro hsc
    by_cases hc : containsStr content oldStr = true
    · have hpos : 0 < splitCount oldStr content :=
        (containsStr_iff_splitCount_pos oldStr hne content).mp hc
      have hgt : 1 < splitCount oldStr content := by omega
      unfold editFile
      rw [if_neg (by simp), if_neg hne, if_neg (by simp [hc]), if_pos hgt]
      exact ⟨rfl,
        "Found ".toList ++ (Nat.repr (splitCount oldStr content)).toList
          ++ " matches for the specified text. Please use a more specific string to avoid ambiguity.".toList,
        rfl⟩
    · unfold editFile
      rw [if_neg (by simp), if_neg hne, if_pos hc]
      exact ⟨rfl,
        "Could not find the specified text in ".toList ++ filePath
          ++ ". Make sure the old_str matches exactly.".toList,
        rfl⟩
  · intro hsc
    have hc : containsStr content oldStr = true :=
      (containsStr_iff_splitCount_pos oldStr hne content).mpr (by omega)
    unfold editFile
    rw [if_neg (by simp), if_neg hne, if_neg (by simp [hc]), if_neg (by omega)]
    exact ⟨rfl, rfl⟩

theorem c10_edit_unique_match_witness :
    ("X".toList ≠ ([] : List Char)) ∧ splitCount "X".toList "aXb".toList = 1 ∧
      splitCount "a".toList "aa".toList ≠ 1 ∧
      ((editFile "f.txt".toList true "aXb".toList "X".toList "Y".toList).written
          = some (replaceFirst "X".toList "Y".toList "aXb".toList) ∧
        (editFile "f.txt".toList true "aXb".toList "X".toList "Y".toList).message
          = "Successfully edited ".toList ++ "f.txt".toList) ∧
      ((editFile "f.txt".toList true "aa".toList "a".toList "Y".toList).written
          = none ∧
        ∃ rest, (editFile "f.txt".toList true "aa".toList "a".toList "Y".toList).message
          = "Error: ".toList ++ rest) :=
  ⟨by decide, by decide, by decide,
    (c10_edit_unique_match "f.txt".toList "aXb".toList "X".toList "Y".toList
      (by decide)).2 (by decide),
    (c10_edit_unique_match "f.txt".toList "aa".toList "a".toList "Y".toList
      (by decide)).1 (by decide)⟩

lemma typescriptResult_spec (a : ExecOutcome) :
    ∃ r, typescriptResult a = some r ∧ (r.skipped = true → r.passed = true) := by
  cases a with
  | ok r => exact ⟨_, rfl, fun _ => rfl⟩
  | err so msg => exact ⟨_, rfl, fun h => by simp at h⟩

lemma testsResult_spec (b : ExecOutcome) :
    ∃ r, testsResult b = some r ∧ (r.skipped = true → r.passed = true) := by
  cases b with
  | ok r => exact ⟨_, rfl, fun _ => rfl⟩
  | err so msg =>
    unfold testsResult
    dsimp only
    by_cases hcond : (containsStr (jsOr so msg) "no test".toList
        || containsStr (jsOr so msg) "No tests found".toList) = true
    · rw [if_pos hcond]
      exact ⟨_, rfl, fun _ => rfl⟩
    · rw [if_neg hcond]
      exact ⟨_, rfl, fun h => by simp at h⟩

lemma lintResult_spec (c : ExecOutcome) :
    ∃ r, lintResult c = some r ∧ (r.skipped = true → r.passed = true) := by
  cases c with
  | ok r => exact ⟨_, rfl, fun _ => rfl⟩
  | err so msg =>
    unfold lintResult
    dsimp only
    by_cases hcond : (containsStr (jsOr so msg) "No ESLint configuration".toList
        || containsStr (jsOr so msg) "eslint: not found".toList) = true
    · rw [if_pos hcond]
      exact ⟨_, rfl, fun _ => rfl⟩
    · rw [if_neg hcond]
      exact ⟨_, rfl, fun h => by simp at h⟩

/-- Claim C7: for every working directory and every outcome of the three
validation commands, `runFeedbackLoops` yields three non-null results and its
`allPassed` is true iff each of them is passed or skipped — a skipped check
never blocks `allPassed` (in the code a skipped check always carries
`passed: true`). -/
theorem c7_allPassed_iff (workingDir : List Char) (a b c : ExecOutcome) :
    ∃ ts te li : FeedbackResult,
      (runFeedbackLoops workingDir a b c).typescript = some ts ∧
      (runFeedbackLoops workingDir a b c).tests = some te ∧
      (runFeedbackLoops workingDir a b c).lint = some li ∧
      ((runFeedbackLoops workingDir a b c).allPassed = true ↔
        ((ts.passed || ts.skipped) = true ∧ (te.passed || te.skipped) = true ∧
          (li.passed || li.skipped) = true)) := by
  obtain ⟨ts, hts, hts2⟩ := typescriptResult_spec a
  obtain ⟨te, hte, hte2⟩ := testsResult_spec b
  obtain ⟨li, hli, hli2⟩ := lintResult_spec c
  refine ⟨ts, te, li, ?_, ?_, ?_, ?_⟩
  · simpa [runFeedbackLoops] using hts
  · simpa [runFeedbackLoops] using hte
  · simpa [runFeedbackLoops] using hli
  · have hall : (runFeedbackLoops workingDir a b c).allPassed
        = (ts.passed && te.passed && li.passed) := by
      simp [runFeedbackLoops, hts, hte, hli]
    rw [hall]
    constructor
    · intro hand
      simp only [Bool.and_eq_true] at hand
      simp [hand.1.1, hand.1.2, hand.2]
    · rintro ⟨h1, h2, h3⟩
      have p1 : ts.passed = true := by
        cases hsk : ts.skipped
        · simpa [hsk] using h1
        · exact hts2 hsk
      have p2 : te.passed = true := by
        cases hsk : te.skipped
        · simpa [hsk] using h2
        · exact hte2 hsk
      have p3 : li.passed = true := by
        cases hsk : li.skipped
        · simpa [hsk] using h3
        · exact hli2 hsk
      simp [p1, p2, p3]

/-- Claim C8: every core tool executor maps every outcome of its external
call to a plain string — the content, or a human-readable error string — and
never propagates the failure; in particular `bash` on a non-zero exit with any
captured output returns the combined stdout and stderr (falling back to
`Error: <message>` only when both are empty). -/
theorem c8_executors_return_strings :
    (∀ (p c : List Char), readFile p (Except.ok c) = c) ∧
    (∀ (p m : List Char),
      readFile p (Except.error m) = "Error reading file: ".toList ++ m) ∧
    (∀ (p : List Char) (entries : List (List Char)),
      listFiles p (Except.ok entries)
        = jsOr (List.intercalate "\n".toList entries) "No files found".toList) ∧
    (∀ (p m : List Char),
      listFiles p (Except.error m) = "Error listing files: ".toList ++ m) ∧
    (∀ (pat sp : List Char) (ft : Option (List Char)) (cs : Bool) (r : List Char),
      codeSearch pat sp ft cs (SearchOutcome.rgOk r)
        = jsOr r "No matches found".toList) ∧
    (∀ (pat sp : List Char) (ft : Option (List Char)) (cs : Bool) (r : List Char),
      codeSearch pat sp ft cs (SearchOutcome.grepOk r)
        = jsOr r "No matches found".toList) ∧
    (∀ (pat sp : List Char) (ft : Option (List Char)) (cs : Bool)
        (st : Option Nat) (m : List Char),
      codeSearch pat sp ft cs (SearchOutcome.grepErr st m)
        = if st = some 1 then "No matches found".toList
          else "Search error: ".toList ++ m) ∧
    (∀ (fp content oldStr newStr : List Char) (present : Bool),
      (editFile fp present content oldStr newStr).message
          = "Created new file: ".toList ++ fp ∨
        (editFile fp present content oldStr newStr).message
          = "Error: File not found: ".toList ++ fp ∨
        (editFile fp present content oldStr newStr).message
          = "Replaced entire file: ".toList ++ fp ∨
        (editFile fp present content oldStr newStr).message
          = "Error: Could not find the specified text in ".toList ++ fp
            ++ ". Make sure the old_str matches exactly.".toList ∨
        (editFile fp present content oldStr newStr).message
          = "Error: Found ".toList ++ (Nat.repr (splitCount oldStr content)).toList
            ++ " matches for the specified text. Please use a more specific string to avoid ambiguity.".toList ∨
        (editFile fp present content oldStr newStr).message
          = "Successfully edited ".toList ++ fp) ∧
    (∀ (cmd : List Char) (t : Nat) (r : List Char),
      bash cmd t (Except.ok r) = jsOr r "Command completed (no output)".toList) ∧
    (∀ (cmd : List Char) (t : Nat) (e : BashErrInfo),
      bash cmd t (Except.error e)
        = jsOr (e.stdout
              ++ (if e.stderr.isEmpty then [] else "\nSTDERR: ".toList ++ e.stderr))
            ("Error: ".toList ++ e.message)) ∧
    (∀ (cmd : List Char) (t : Nat) (e : BashErrInfo),
      e.stdout ≠ [] →
        bash cmd t (Except.error e)
          = e.stdout
            ++ (if e.stderr.isEmpty then [] else "\nSTDERR: ".toList ++ e.stderr)) := by
  refine ⟨fun _ _ => rfl, fun _ _ => rfl, fun _ _ => rfl, fun _ _ => rfl,
    fun _ _ _ _ _ => rfl, fun _ _ _ _ _ => rfl, fun _ _ _ _ _ _ => rfl,
    ?_, fun _ _ _ => rfl, fun _ _ _ => rfl, ?_⟩
  · intro fp content oldStr newStr present
    unfold editFile
    by_cases hpres : present = true
    · subst hpres
      rw [if_neg (by simp)]
      by_cases hold : oldStr.isEmpty
      · rw [if_pos hold]
        tauto
      · rw [if_neg hold]
        by_cases hc : ¬ containsStr content oldStr = true
        · rw [if_pos hc]
          tauto
        · rw [if_neg hc]
          by_cases hm : 1 < splitCount oldStr content
          · rw [if_pos hm]
            tauto
          · rw [if_neg hm]
            tauto
    · have hfalse : present = false := by
        cases present
        · rfl
        · exact absurd rfl hpres
      subst hfalse
      rw [if_pos (by simp)]
      by_cases hold : oldStr.isEmpty
      · rw [if_pos hold]
        tauto
      · rw [if_neg hold]
        tauto
  · intro cmd t e hso
    have hne : (e.stdout
        ++ (if e.stderr.isEmpty then [] else "\nSTDERR: ".toList ++ e.stderr)) ≠ [] := by
      intro hemp
      rw [List.append_eq_nil] at hemp
      exact hso hemp.1
    unfold bash jsOr
    dsimp only
    rw [if_neg (by simpa [List.isEmpty_iff] using hne)]

theorem c8_executors_return_strings_witness :
    ("out".toList ≠ ([] : List Char)) ∧
      bash "ls".toList 30000
          (Except.error (⟨"out".toList, "oops".toList, "exit 1".toList⟩ : BashErrInfo))
        = "out".toList
          ++ (if "oops".toList.isEmpty then [] else "\nSTDERR: ".toList ++ "oops".toList) :=
  ⟨by decide,
    c8_executors_return_strings.2.2.2.2.2.2.2.2.2.2 "ls".toList 30000
      ⟨"out".toList, "oops".toList, "exit 1".toList⟩ (by decide)⟩

/-- Claim C9: the tool schema set advertised in every Oracle model call is
exactly `{read_file, list_files, code_search}` — on the OpenAI path too, via
`toOpenAITools` — it contains neither `edit_file`, `bash` nor any meta-tool
name, and every call of the Oracle's loop advertises that same constant set,
fixed at construction. -/
theorem c9_oracle_capability :
    readOnlyTools.map ToolDefinition.name
        = ["read_file".toList, "list_files".toList, "code_search".toList] ∧
    (toOpenAITools readOnlyTools).map OpenAITool.name
        = ["read_file".toList, "list_files".toList, "code_search".toList] ∧
    (∀ bad ∈ forbiddenForOracle, bad ∉ readOnlyTools.map ToolDefinition.name) ∧
    (∀ (provider : List ToolDefinition → List Message → List ContentBlock)
        (exec : List Char → ToolInput → List Char) (fuel : Nat)
        (msgs : List Message) (ts : List ToolDefinition),
      ts ∈ (consultAnthropicLoop provider exec fuel msgs).advertisedLists →
        ts = readOnlyTools) := by
  refine ⟨rfl, rfl, by decide, ?_⟩
  intro provider exec fuel msgs ts hmem
  exact consultAnthropicLoop_advertised provider exec fuel msgs ts hmem

theorem c9_oracle_capability_witness :
    ("bash".toList ∈ forbiddenForOracle ∧
      "bash".toList ∉ readOnlyTools.map ToolDefinition.name) ∧
      (readOnlyTools ∈
          (consultAnthropicLoop stubOracleDone stubExec 1 []).advertisedLists ∧
        readOnlyTools = readOnlyTools) := by
  have h := c9_oracle_capability
  have hadv : (consultAnthropicLoop stubOracleDone stubExec 1 []).advertisedLists
      = [readOnlyTools] := rfl
  have hmem : readOnlyTools ∈
      (consultAnthropicLoop stubOracleDone stubExec 1 []).advertisedLists := by
    rw [hadv]
    exact List.mem_singleton.mpr rfl
  exact ⟨⟨by decide, h.2.2.1 "bash".toList (by decide)⟩,
    hmem, h.2.2.2 stubOracleDone stubExec 1 [] readOnlyTools hmem⟩

/-- Claim C6 counterexample: a provider response whose tool call carries an
arguments string that fails to parse makes `JSON.parse` throw *out of* the
tool-call loop — the run ends in the `thrown` state, the loop terminates, and
no tool-result conversion happens; the error surfaces only at the outer
`Oracle.consult` boundary as `Oracle error: …`, not as that call's tool
result.  This contradicts the claim that a parse failure is caught at the
adapter boundary and never terminates the loop. -/
theorem c6_counterexample :
    consultOpenAILoop stubMalformedProvider stubEnv 5
        [OpenAIMsg.system "sys".toList, OpenAIMsg.user "q".toList]
      = ConsultOutcome.thrown "Unexpected token x in JSON at position 0".toList ∧
    consultOracleOpenAI stubMalformedProvider stubEnv 5 "sys".toList "q".toList
      = "Oracle error: Unexpected token x in JSON at position 0".toList := by
  exact ⟨rfl, rfl⟩

/-- Claim C6 (amended): only an *unknown tool name* with parseable arguments
is converted at the adapter boundary, into the tool result
`Unknown tool: <name>`; an arguments string that fails to parse instead makes
`JSON.parse` throw at the first malformed call, the exception escapes and
terminates the tool-call loop, and it is converted to an error string only by
the surrounding `Oracle.consult` catch, which returns `Oracle error:
<message>`. -/
theorem c6_parse_failure_escapes_loop (env : ReadOnlyEnv) :
    (∀ (name : List Char) (input : ToolInput),
      name ≠ "read_file".toList → name ≠ "list_files".toList →
        name ≠ "code_search".toList →
        executeReadOnlyTool env name input = "Unknown tool: ".toList ++ name) ∧
    (∀ (calls : List OpenAIToolCall) (m : List Char),
      firstParseError calls = some m →
        processOpenAIToolCalls env calls = Except.error m) ∧
    (∀ (provider : List OpenAIMsg → OpenAIAssistantMsg) (fuel : Nat)
        (systemPrompt userMessage m : List Char),
      firstParseError ((provider [OpenAIMsg.system systemPrompt,
          OpenAIMsg.user userMessage]).tool_calls) = some m →
        consultOpenAILoop provider env (fuel + 1)
            [OpenAIMsg.system systemPrompt, OpenAIMsg.user userMessage]
          = ConsultOutcome.thrown m ∧
        consultOracleOpenAI provider env (fuel + 1) systemPrompt userMessage
          = "Oracle error: ".toList ++ m) := by
  refine ⟨?_, processOpenAIToolCalls_error env, ?_⟩
  · intro name input h1 h2 h3
    unfold executeReadOnlyTool
    rw [if_neg h1, if_neg h2, if_neg h3]
  · intro provider fuel systemPrompt userMessage m hm
    have hloop : consultOpenAILoop provider env (fuel + 1)
        [OpenAIMsg.system systemPrompt, OpenAIMsg.user userMessage]
        = ConsultOutcome.thrown m := by
      have hne : ((provider [OpenAIMsg.system systemPrompt,
          OpenAIMsg.user userMessage]).tool_calls).isEmpty = false := by
        cases hc : (provider [OpenAIMsg.system systemPrompt,
            OpenAIMsg.user userMessage]).tool_calls with
        | nil => rw [hc] at hm; simp [firstParseError] at hm
        | cons a b => rfl
      rw [consultOpenAILoop]
      rw [hne]
      simp only [Bool.false_eq_true, if_false]
      rw [processOpenAIToolCalls_error env _ m hm]
    exact ⟨hloop, by unfold consultOracleOpenAI; rw [hloop]⟩

theorem c6_parse_failure_escapes_loop_witness :
    ("bogus_tool".toList ≠ "read_file".toList ∧
      executeReadOnlyTool stubEnv "bogus_tool".toList emptyInput
        = "Unknown tool: ".toList ++ "bogus_tool".toList) ∧
      (firstParseError ((stubMalformedProvider [OpenAIMsg.system "sys".toList,
          OpenAIMsg.user "q".toList]).tool_calls)
        = some "Unexpected token x in JSON at position 0".toList ∧
      consultOracleOpenAI stubMalformedProvider stubEnv 4 "sys".toList "q".toList
        = "Oracle error: ".toList
          ++ "Unexpected token x in JSON at position 0".toList) := by
  have h := c6_parse_failure_escapes_loop stubEnv
  exact ⟨⟨by decide,
      h.1 "bogus_tool".toList emptyInput (by decide) (by decide) (by decide)⟩,
    rfl,
    (h.2.2 stubMalformedProvider 3 "sys".toList "q".toList
      "Unexpected token x in JSON at position 0".toList rfl).2⟩

end AgentDemo
